import Mathlib

/-!
Verification of the aidecomment procedural macro (src/lib.rs).

The macro takes an annotated Rust function, extracts its doc-comment
fragments, splits them into a summary and a description, and emits a
companion unit struct, an aide OperationInput implementation, an axum
FromRequestParts implementation, and the rewritten function with the
companion struct inserted as the first parameter.

Strings are modelled as lists of characters (List Char).  Rust string
primitives used by the macro (str::lines, str::trim, Vec::join,
Iterator::position) are embedded below, faithful to their documented
semantics.
-/

namespace AideComment

/-- Unicode code points with the White_Space property, as recognised by the
Rust function char::is_whitespace, which str::trim uses. -/
def isRustWhitespace (c : Char) : Bool :=
  (9 ≤ c.toNat && c.toNat ≤ 13) || c.toNat = 32 || c.toNat = 0x85 || c.toNat = 0xA0 ||
  c.toNat = 0x1680 || (0x2000 ≤ c.toNat && c.toNat ≤ 0x200A) ||
  c.toNat = 0x2028 || c.toNat = 0x2029 || c.toNat = 0x202F || c.toNat = 0x205F ||
  c.toNat = 0x3000

/-- Rust str::trim_start - remove leading whitespace. -/
def trimStart (s : List Char) : List Char := s.dropWhile isRustWhitespace

/-- Rust str::trim_end - remove trailing whitespace. -/
def trimEnd (s : List Char) : List Char := (s.reverse.dropWhile isRustWhitespace).reverse

/-- Rust str::trim - remove leading and trailing whitespace.  The two
one-sided trims act on opposite ends, so the composition is the
both-ends trim of the Rust standard library. -/
def trim (s : List Char) : List Char := trimStart (trimEnd s)

/-- One emitted line of Rust str::lines, from the accumulator of characters
seen since the last line feed, held in reverse order.  A line that was
terminated by a line feed has a directly preceding carriage return
stripped (the CRLF ending). -/
def lineOfRevAcc (acc : List Char) : List Char :=
  if acc.head? = some '\r' then acc.tail.reverse else acc.reverse

/-- Worker for Rust str::lines: acc holds the characters of the current
line in reverse.  A line feed emits the current line (with CRLF handling);
at the end of input the final segment is emitted only when it is nonempty,
because a final line terminator is optional and produces no extra line. -/
def linesAux (acc : List Char) : List Char → List (List Char)
  | [] => if acc.isEmpty then [] else [acc.reverse]
  | c :: rest => if c = '\n' then lineOfRevAcc acc :: linesAux [] rest else linesAux (c :: acc) rest

/-- Rust str::lines, used at line 63 of lib.rs. -/
def rustLines (s : List Char) : List (List Char) := linesAux [] s

/-- Proof device: the variant of linesAux that always emits the final
segment, with CRLF stripping.  It is not part of the embedding; it is
definitionally equal to running linesAux on the input extended with one
final line feed (theorem linesAux_append_newline below), which is how the
analysis of a trailing empty fragment proceeds. -/
def linesAuxT (acc : List Char) : List Char → List (List Char)
  | [] => [lineOfRevAcc acc]
  | c :: rest => if c = '\n' then lineOfRevAcc acc :: linesAuxT [] rest else linesAuxT (c :: acc) rest

/-- Vec::join with the separator string consisting of one line feed,
line 62 of lib.rs: doc_comments.join with a newline separator. -/
def joinNL (frags : List (List Char)) : List Char := List.intercalate ['\n'] frags

/-- The predicate of line 68 of lib.rs: line.trim().is_empty(). -/
def isBlankLine (l : List Char) : Bool := (trim l).isEmpty

/-- Lines 66-69 of lib.rs: position of the first blank line, defaulting to
the number of lines (Iterator::position returning None maps to lines.len()
through unwrap_or; List.findIdx returns the length when no element
matches, which is the same total function). -/
def firstEmptyIdx (lines : List (List Char)) : Nat := lines.findIdx isBlankLine

/-- Lines 66-75 of lib.rs applied to an already-computed line list: drain
the prefix before the first blank line and concatenate it with no
separator to get the summary, join the remaining lines (the blank line
included) with newlines to get the description, trimming both. -/
def splitLines (lines : List (List Char)) : List Char × List Char :=
  (trim ((lines.take (firstEmptyIdx lines)).flatten),
   trim (List.intercalate ['\n'] (lines.drop (firstEmptyIdx lines))))

/-- Lines 62-75 of lib.rs: the full summary/description split of a list of
doc-comment fragment strings. -/
def splitDoc (frags : List (List Char)) : List Char × List Char :=
  splitLines (rustLines (joinNL frags))

/-- A function argument (syn::FnArg): either a typed pattern or a
receiver (self) argument.  Only the pattern text and type text matter to
the transform, which treats original arguments opaquely. -/
inductive FnArg where
  | typed (pat : List Char) (ty : List Char)
  | receiver
  deriving DecidableEq

/-- The function signature data used by the macro: the name, the ordered
parameter list and the (opaque) return type. -/
structure Signature where
  ident : List Char
  inputs : List FnArg
  output : List Char
  deriving DecidableEq

/-- One attribute of the function, reduced to the shape the filters at
lines 44-60 of lib.rs distinguish: a name-value attribute whose value is
a string literal, a name-value attribute with any other value, or any
other attribute form (path or list). -/
inductive AttrMeta where
  | nameValueStr (path : List Char) (value : List Char)
  | nameValueOther (path : List Char)
  | other
  deriving DecidableEq

/-- The parsed function item (syn::ItemFn): attributes, visibility
(opaque), signature and body (opaque). -/
structure ItemFn where
  attrs : List AttrMeta
  vis : List Char
  sig : Signature
  block : List Char
  deriving DecidableEq

/-- Lines 44-60 of lib.rs: keep exactly the name-value attributes whose
path is the identifier doc and whose value is a string literal, in order,
taking their string values. -/
def docStrings (attrs : List AttrMeta) : List (List Char) :=
  attrs.filterMap fun a =>
    match a with
    | AttrMeta.nameValueStr path value => if path = "doc".data then some value else none
    | _ => none

/-- Line 77 of lib.rs: the companion struct name is the function name with
the fixed suffix appended. -/
def companionName (ident : List Char) : List Char := ident ++ "_AideComment".data

/-- First character of a Rust identifier (ASCII model: letter or
underscore). -/
def isIdentStartChar (c : Char) : Bool := c.isAlpha || c = '_'

/-- Continuation character of a Rust identifier (ASCII model: letter,
digit or underscore). -/
def isIdentContChar (c : Char) : Bool := c.isAlphanum || c = '_'

/-- The strict and reserved Rust keywords, which cannot be used as plain
identifiers or path segments. -/
def rustKeywords : List (List Char) :=
  ["as", "async", "await", "break", "const", "continue", "crate", "dyn", "else",
   "enum", "extern", "false", "fn", "for", "if", "impl", "in", "let", "loop",
   "match", "mod", "move", "mut", "pub", "ref", "return", "self", "Self",
   "static", "struct", "super", "trait", "true", "type", "unsafe", "use",
   "where", "while", "abstract", "become", "box", "do", "final", "macro",
   "override", "priv", "typeof", "unsized", "virtual", "yield", "try"].map String.data

/-- A valid plain Rust identifier (ASCII model): nonempty, a start
character followed by continuation characters, not a lone underscore and
not a keyword. -/
def isValidIdentM (s : List Char) : Bool :=
  match s with
  | [] => false
  | c :: rest =>
    isIdentStartChar c && rest.all isIdentContChar &&
    !(decide ((c :: rest) = ['_'])) && !(decide ((c :: rest) ∈ rustKeywords))

/-- Models syn::parse_str for FnArg restricted to the only grammar the
macro ever feeds it (line 82 of lib.rs): the wildcard pattern, a colon and
space, and a single-identifier type path.  Parsing succeeds exactly when
the type text is a valid identifier. -/
def parseFnArgStr (s : List Char) : Option FnArg :=
  match s with
  | c1 :: c2 :: c3 :: ty =>
    if c1 = '_' ∧ c2 = ':' ∧ c3 = ' ' ∧ isValidIdentM ty = true then
      some (FnArg.typed ['_'] ty)
    else none
  | _ => none

/-- Line 82 of lib.rs: the string built by the format macro for the new
first argument. -/
def synthArgString (ident : List Char) : List Char := '_' :: ':' :: ' ' :: companionName ident

/-- Everything the macro emits that the claims mention: the companion
struct name and visibility, the summary and description literals spliced
into the OperationInput implementation, and the rewritten function. -/
structure MacroOutput where
  structName : List Char
  vis : List Char
  summary : List Char
  description : List Char
  rewritten : ItemFn
  deriving DecidableEq

/-- Lines 41-107 of lib.rs: the aidecomment transform.  The value is none
exactly when the unwrap at line 82 would panic (the synthesized argument
string fails to parse); otherwise it carries the emitted output.  The
insertion at line 83 is inputs.insert at index 0. -/
def aidecomment (f : ItemFn) : Option MacroOutput :=
  (parseFnArgStr (synthArgString f.sig.ident)).map fun arg =>
    { structName := companionName f.sig.ident
      vis := f.vis
      summary := (splitDoc (docStrings f.attrs)).1
      description := (splitDoc (docStrings f.attrs)).2
      rewritten := { f with sig := { f.sig with inputs := List.insertIdx 0 arg f.sig.inputs } } }

/-- The aide openapi Operation artifact, reduced to the two fields the
generated OperationInput implementation touches. -/
structure Operation where
  summary : Option (List Char)
  description : Option (List Char)
  deriving DecidableEq

/-- Lines 88-93 of lib.rs: the generated OperationInput::operation_input
body, which stores Some of each spliced literal into the operation. -/
def operation_input (out : MacroOutput) (op : Operation) : Operation :=
  { op with summary := some out.summary, description := some out.description }

/-- The generated companion unit struct, a singleton type. -/
inductive AideCommentStruct where
  | mk
  deriving DecidableEq

/-- Line 97 of lib.rs: type Rejection = Infallible, the uninhabited
failure type of the generated extractor. -/
def Rejection : Type := Empty

/-- Lines 98-103 of lib.rs: the generated FromRequestParts::from_request_parts
body, which ignores the request parts and state and returns Ok of the
companion struct value. -/
def from_request_parts {Parts S : Type} (_parts : Parts) (_state : S) :
    Except Rejection AideCommentStruct :=
  Except.ok AideCommentStruct.mk

/-- A sample annotated handler used to instantiate proved theorems: doc
comment of a summary line, a blank line and a description line, with two
original parameters. -/
def sampleFn : ItemFn :=
  { attrs := [AttrMeta.nameValueStr "doc".data " This is a summary".data,
              AttrMeta.nameValueStr "doc".data "".data,
              AttrMeta.nameValueStr "doc".data " This is a longer description.".data],
    vis := "pub".data,
    sig := { ident := "my_handler".data,
             inputs := [FnArg.typed "a".data "i32".data, FnArg.typed "b".data "i32".data],
             output := "i32".data },
    block := "body".data }

/-- The output the macro produces for sampleFn, written out in full. -/
def sampleOut : MacroOutput :=
  { structName := "my_handler_AideComment".data,
    vis := "pub".data,
    summary := "This is a summary".data,
    description := "This is a longer description.".data,
    rewritten :=
      { attrs := [AttrMeta.nameValueStr "doc".data " This is a summary".data,
                  AttrMeta.nameValueStr "doc".data "".data,
                  AttrMeta.nameValueStr "doc".data " This is a longer description.".data],
        vis := "pub".data,
        sig := { ident := "my_handler".data,
                 inputs := [FnArg.typed ['_'] "my_handler_AideComment".data,
                            FnArg.typed "a".data "i32".data, FnArg.typed "b".data "i32".data],
                 output := "i32".data },
        block := "body".data } }

/-- A sample handler with no documentation at all and no parameters. -/
def emptyDocFn : ItemFn :=
  { attrs := [], vis := [], sig := { ident := "h".data, inputs := [], output := [] }, block := [] }

/-- The output the macro produces for emptyDocFn. -/
def emptyDocOut : MacroOutput :=
  { structName := "h_AideComment".data,
    vis := [],
    summary := [],
    description := [],
    rewritten :=
      { attrs := [], vis := [],
        sig := { ident := "h".data,
                 inputs := [FnArg.typed ['_'] "h_AideComment".data], output := [] },
        block := [] } }

/-! Helper lemmas about the embedded Rust string primitives. -/

theorem trim_append_ws (s : List Char) (c : Char) (h : isRustWhitespace c = true) :
    trim (s ++ [c]) = trim s := by
  have hrev : (s ++ [c]).reverse = c :: s.reverse := by simp
  rw [trim, trim, trimEnd, trimEnd, hrev, List.dropWhile_cons, if_pos h]

theorem isBlankLine_append_ws (s : List Char) (c : Char) (h : isRustWhitespace c = true) :
    isBlankLine (s ++ [c]) = isBlankLine s := by
  rw [isBlankLine, isBlankLine, trim_append_ws s c h]

theorem findIdx_append_singleton_congr {α : Type} (p : α → Bool) (x y : α)
    (hxy : p x = p y) (l : List α) : (l ++ [x]).findIdx p = (l ++ [y]).findIdx p := by
  induction l with
  | nil => simp [List.findIdx_cons, hxy]
  | cons a t ih => simp [List.findIdx_cons, ih]

theorem findIdx_append_singleton_true {α : Type} (p : α → Bool) (x : α)
    (hx : p x = true) (l : List α) : (l ++ [x]).findIdx p = l.findIdx p := by
  induction l with
  | nil => simp [List.findIdx_cons, hx, List.findIdx_nil]
  | cons a t ih => simp [List.findIdx_cons, ih]

theorem intercalate_single {α : Type} (s x : List α) : List.intercalate s [x] = x := by
  simp [List.intercalate, List.intersperse]

theorem intercalate_cons2 {α : Type} (s x y : List α) (zs : List (List α)) :
    List.intercalate s (x :: y :: zs) = x ++ s ++ List.intercalate s (y :: zs) := by
  simp [List.intercalate, List.intersperse]

theorem intercalate_append_singleton {α : Type} (s x last : List α) (zs : List (List α)) :
    List.intercalate s ((x :: zs) ++ [last]) = List.intercalate s (x :: zs) ++ s ++ last := by
  induction zs generalizing x with
  | nil => simp [intercalate_cons2, intercalate_single, List.append_assoc]
  | cons y ys ih =>
    have e1 : (x :: y :: ys) ++ [last] = x :: (y :: (ys ++ [last])) := rfl
    have e2 : y :: (ys ++ [last]) = (y :: ys) ++ [last] := rfl
    rw [e1, intercalate_cons2, e2, ih y, intercalate_cons2]
    simp [List.append_assoc]

/-! Claim C2: a Doc Block with no blank line puts everything in the
summary and leaves the description empty. -/

/-- C2: when no line of the Doc Block is blank after trimming, the split
yields an empty description, and the summary is the separator-free
concatenation of all lines, trimmed. -/
theorem no_blank_line_split (frags : List (List Char))
    (h : ∀ l ∈ rustLines (joinNL frags), (trim l).isEmpty = false) :
    splitDoc frags = (trim (rustLines (joinNL frags)).flatten, []) := by
  have hk : (rustLines (joinNL frags)).findIdx isBlankLine = (rustLines (joinNL frags)).length :=
    List.findIdx_eq_length.mpr (fun x hx => h x hx)
  simp only [splitDoc, splitLines, firstEmptyIdx]
  rw [hk, List.take_length, List.drop_length]
  rfl

/-- Witness for C2 on the single-fragment spec scenario. -/
theorem no_blank_line_split_witness :
    splitDoc ["Single line only.".data]
      = (trim (rustLines (joinNL ["Single line only.".data])).flatten, []) :=
  no_blank_line_split ["Single line only.".data] (by decide)

/-! Claim C3: a Doc Block whose first line is blank yields an empty
summary, and the description is all remaining lines newline-joined and
trimmed. -/

/-- C3: when the first line of the Doc Block is blank, the summary is
empty and the description is the whole remaining line list, the leading
blank line included, joined with newlines and trimmed. -/
theorem leading_blank_split (frags : List (List Char)) (l0 : List Char)
    (rest : List (List Char)) (hl : rustLines (joinNL frags) = l0 :: rest)
    (h0 : (trim l0).isEmpty = true) :
    splitDoc frags = ([], trim (List.intercalate ['\n'] (l0 :: rest))) := by
  have hk : (l0 :: rest).findIdx isBlankLine = 0 := by
    rw [List.findIdx_cons]
    simp [isBlankLine, h0]
  simp only [splitDoc, splitLines, firstEmptyIdx, hl, hk, List.take_zero, List.drop_zero]
  rfl

/-- Witness for C3 on the spec scenario with a leading blank fragment. -/
theorem leading_blank_split_witness :
    splitDoc ["".data, "Body text after blank.".data]
      = ([], trim (List.intercalate ['\n'] ([] :: ["Body text after blank.".data]))) :=
  leading_blank_split ["".data, "Body text after blank.".data] [] ["Body text after blank.".data]
    (by decide) (by decide)

/-! Claim C8: determinism of the split. -/

/-- C8: the split is a pure function of the fragment sequence, so two runs
on identical inputs give identical summary and description pairs. -/
theorem split_deterministic (f1 f2 : List (List Char)) (h : f1 = f2) :
    splitDoc f1 = splitDoc f2 :=
  congrArg splitDoc h

/-- Witness for C8 at a concrete fragment list. -/
theorem split_deterministic_witness :
    splitDoc ["This is a summary".data] = splitDoc ["This is a summary".data] :=
  split_deterministic ["This is a summary".data] ["This is a summary".data] rfl

/-! Claim C9: the
unwrap of the parsed synthesized argument never panics. -/

theorem companionName_valid (i : List Char) (h : isValidIdentM i = true) :
    isValidIdentM (companionName i) = true := by
  cases i with
  | nil => simp [isValidIdentM] at h
  | cons c rest =>
    have hcn : companionName (c :: rest) = c :: (rest ++ "_AideComment".data) := by
      simp [companionName]
    rw [hcn]
    simp only [isValidIdentM, Bool.and_eq_true, Bool.not_eq_true', decide_eq_false_iff_not] at h ⊢
    obtain ⟨⟨⟨h1, h2⟩, _h3⟩, _h4⟩ := h
    refine ⟨⟨⟨h1, ?_⟩, ?_⟩, ?_⟩
    · rw [List.all_append, h2]
      decide
    · intro heq
      have : rest ++ "_AideComment".data = [] := (List.cons.injEq _ _ _ _).mp heq |>.2
      rcases List.append_eq_nil.mp this with ⟨_, habs⟩
      simp at habs
    · intro hmem
      have hlen : ∀ k ∈ rustKeywords, k.length ≤ 8 := by decide
      have := hlen _ hmem
      simp [List.length_append] at this

theorem parse_synth_ok (i : List Char) (h : isValidIdentM i = true) :
    parseFnArgStr (synthArgString i) = some (FnArg.typed ['_'] (companionName i)) := by
  have hv := companionName_valid i h
  simp [parseFnArgStr, synthArgString, hv]

/-- C9: for a function whose name is a valid identifier, the synthesized
argument string always parses, so the unwrap at line 82 of lib.rs never
panics; the parsed argument is the wildcard binding of the companion
type. -/
theorem synth_arg_parse_ok (i : List Char) (h : isValidIdentM i = true) :
    (parseFnArgStr (synthArgString i)).isSome = true ∧
    parseFnArgStr (synthArgString i) = some (FnArg.typed ['_'] (companionName i)) := by
  rw [parse_synth_ok i h]
  exact ⟨rfl, rfl⟩

/-- Witness for C9 at the doc example handler name. -/
theorem synth_arg_parse_ok_witness :
    (parseFnArgStr (synthArgString "my_handler".data)).isSome = true ∧
    parseFnArgStr (synthArgString "my_handler".data)
      = some (FnArg.typed ['_'] (companionName "my_handler".data)) :=
  synth_arg_parse_ok "my_handler".data (by decide)

/-! The transform output in explicit form, shared by several claims. -/

theorem parse_synth_shape (i : List Char) (a : FnArg)
    (h : parseFnArgStr (synthArgString i) = some a) :
    a = FnArg.typed ['_'] (companionName i) := by
  simp only [parseFnArgStr, synthArgString] at h
  split at h
  · exact (Option.some.injEq _ _).mp h |>.symm
  · exact absurd h (by simp)

theorem aidecomment_eq_some (f : ItemFn) (out : MacroOutput)
    (h : aidecomment f = some out) :
    out = { structName := companionName f.sig.ident
            vis := f.vis
            summary := (splitDoc (docStrings f.attrs)).1
            description := (splitDoc (docStrings f.attrs)).2
            rewritten := { f with sig := { f.sig with
              inputs := FnArg.typed ['_'] (companionName f.sig.ident) :: f.sig.inputs } } } := by
  rw [aidecomment, Option.map_eq_some'] at h
  obtain ⟨a, ha, hout⟩ := h
  rw [parse_synth_shape f.sig.ident a ha] at hout
  rw [← hout, List.insertIdx_zero]

/-! Claim C1: the parameter-shift invariant. -/

/-- C1: the rewritten declaration has one more parameter than the
original; index 0 holds the wildcard binding of the companion type, and
the tail of the new parameter list is exactly the original parameter
list, names, types and order unchanged. -/
theorem param_shift_invariant (f : ItemFn) (out : MacroOutput)
    (h : aidecomment f = some out) :
    out.rewritten.sig.inputs.length = f.sig.inputs.length + 1 ∧
    out.rewritten.sig.inputs[0]? = some (FnArg.typed ['_'] (companionName f.sig.ident)) ∧
    out.rewritten.sig.inputs.tail = f.sig.inputs := by
  rw [aidecomment_eq_some f out h]
  exact ⟨by simp, by simp, rfl⟩

/-- Witness for C1 at the sample handler with two parameters. -/
theorem param_shift_invariant_witness :
    sampleOut.rewritten.sig.inputs.length = sampleFn.sig.inputs.length + 1 ∧
    sampleOut.rewritten.sig.inputs[0]?
      = some (FnArg.typed ['_'] (companionName sampleFn.sig.ident)) ∧
    sampleOut.rewritten.sig.inputs.tail = sampleFn.sig.inputs :=
  param_shift_invariant sampleFn sampleOut (by decide)

/-! Claim C7: the rewrite only touches the parameter list. -/

/-- C7: the rewritten declaration keeps the original body, return type,
name, visibility and attributes; only the parameter list changes. -/
theorem frame_preserved (f : ItemFn) (out : MacroOutput)
    (h : aidecomment f = some out) :
    out.rewritten.block = f.block ∧
    out.rewritten.sig.output = f.sig.output ∧
    out.rewritten.sig.ident = f.sig.ident ∧
    out.rewritten.vis = f.vis ∧
    out.rewritten.attrs = f.attrs := by
  rw [aidecomment_eq_some f out h]
  exact ⟨rfl, rfl, rfl, rfl, rfl⟩

/-- Witness for C7 at the sample handler. -/
theorem frame_preserved_witness :
    sampleOut.rewritten.block = sampleFn.block ∧
    sampleOut.rewritten.sig.output = sampleFn.sig.output ∧
    sampleOut.rewritten.sig.ident = sampleFn.sig.ident ∧
    sampleOut.rewritten.vis = sampleFn.vis ∧
    sampleOut.rewritten.attrs = sampleFn.attrs :=
  frame_preserved sampleFn sampleOut (by decide)

/-! Claim C4: the generated metadata provider always stores present
fields. -/

/-- C4: the generated operation_input body stores Some of the computed
summary and Some of the computed description into the operation, so both
fields are present even when the strings are empty. -/
theorem operation_fields_present (f : ItemFn) (out : MacroOutput) (op : Operation)
    (h : aidecomment f = some out) :
    (operation_input out op).summary = some (splitDoc (docStrings f.attrs)).1 ∧
    (operation_input out op).description = some (splitDoc (docStrings f.attrs)).2 ∧
    (operation_input out op).summary.isSome = true ∧
    (operation_input out op).description.isSome = true := by
  rw [aidecomment_eq_some f out h]
  exact ⟨rfl, rfl, rfl, rfl⟩

/-- Witness for C4 at the handler with no documentation at all: the
fields are still present, holding empty strings. -/
theorem operation_fields_present_witness :
    (operation_input emptyDocOut { summary := none, description := none }).summary
      = some (splitDoc (docStrings emptyDocFn.attrs)).1 ∧
    (operation_input emptyDocOut { summary := none, description := none }).description
      = some (splitDoc (docStrings emptyDocFn.attrs)).2 ∧
    (operation_input emptyDocOut { summary := none, description := none }).summary.isSome = true ∧
    (operation_input emptyDocOut { summary := none, description := none }).description.isSome
      = true :=
  operation_fields_present emptyDocFn emptyDocOut { summary := none, description := none }
    (by decide)

/-! Claim C5: the generated extractor is infallible. -/

/-- C5: the generated from_request_parts body succeeds for every request
parts value and every state, yielding the singleton companion value, and
its declared rejection type is uninhabited. -/
theorem extractor_infallible : ∀ (Parts S : Type) (parts : Parts) (state : S),
    from_request_parts parts state = Except.ok AideCommentStruct.mk ∧
    (Rejection → False) ∧
    (∀ x : AideCommentStruct, x = AideCommentStruct.mk) := by
  intro Parts S parts state
  refine ⟨rfl, ?_, ?_⟩
  · intro r
    exact nomatch r
  · intro x
    cases x
    rfl

/-! Claim C6: the one fragment, one line correspondence. -/

theorem linesAux_append_noNL (f : List Char) :
    ∀ (acc t : List Char), (∀ c ∈ f, ¬ c = '\n') →
    linesAux acc (f ++ t) = linesAux (f.reverse ++ acc) t := by
  induction f with
  | nil =>
    intro acc t _
    simp
  | cons c fs ih =>
    intro acc t h
    have hc : ¬ c = '\n' := h c (by simp)
    have e : (c :: fs) ++ t = c :: (fs ++ t) := rfl
    rw [e]
    simp only [linesAux, if_neg hc]
    rw [ih (c :: acc) t (fun x hx => h x (by simp [hx]))]
    congr 1
    simp [List.append_assoc]

theorem lineOfRevAcc_of_noCR (f : List Char) (h : ∀ c ∈ f, ¬ c = '\r') :
    lineOfRevAcc f.reverse = f := by
  rw [lineOfRevAcc]
  split
  · next hsome =>
    exfalso
    cases hrev : f.reverse with
    | nil => rw [hrev] at hsome; simp at hsome
    | cons a t =>
      rw [hrev] at hsome
      have ha : a = '\r' := by simpa using hsome
      have : a ∈ f.reverse := by rw [hrev]; exact List.mem_cons_self a t
      exact h a (List.mem_reverse.mp this) ha
  · simp

theorem rustLines_joinNL_eq : ∀ frags : List (List Char),
    (∀ f ∈ frags, ∀ c ∈ f, ¬ c = '\n' ∧ ¬ c = '\r') →
    ¬ frags.getLast? = some [] →
    rustLines (joinNL frags) = frags := by
  intro frags
  induction frags with
  | nil => intro _ _; rfl
  | cons f rest ih =>
    intro hchars hlast
    have hnl : ∀ c ∈ f, ¬ c = '\n' := fun c hc => (hchars f (by simp) c hc).1
    have hcr : ∀ c ∈ f, ¬ c = '\r' := fun c hc => (hchars f (by simp) c hc).2
    cases rest with
    | nil =>
      have hf : ¬ f = [] := by
        intro h0
        exact hlast (by simp [h0])
      have hj : joinNL [f] = f := intercalate_single ['\n'] f
      rw [hj, rustLines]
      calc linesAux [] f
          = linesAux [] (f ++ []) := by rw [List.append_nil]
        _ = linesAux (f.reverse ++ []) [] := linesAux_append_noNL f [] [] hnl
        _ = [f] := by
            rw [List.append_nil]
            simp only [linesAux]
            have hne : f.reverse.isEmpty = false := by
              simp [List.isEmpty_iff, hf]
            rw [hne]
            simp
    | cons g rs =>
      have hj : joinNL (f :: g :: rs) = f ++ ['\n'] ++ joinNL (g :: rs) :=
        intercalate_cons2 ['\n'] f g rs
      have e : f ++ ['\n'] ++ joinNL (g :: rs) = f ++ ('\n' :: joinNL (g :: rs)) := by
        simp
      rw [rustLines, hj, e, linesAux_append_noNL f [] _ hnl, List.append_nil]
      simp only [linesAux, if_pos rfl]
      rw [lineOfRevAcc_of_noCR f hcr]
      have ihh : rustLines (joinNL (g :: rs)) = g :: rs := by
        refine ih (fun x hx c hc => hchars x (by simp [hx]) c hc) ?_
        intro hbad
        exact hlast (by rw [List.getLast?_cons_cons]; exact hbad)
      rw [rustLines] at ihh
      rw [ihh]
      simp

/-- C6 counterexample: a single doc fragment holding two merged lines (an
embedded line feed, as a block doc comment produces) contributes two
lines to the Doc Block, not one. -/
theorem one_fragment_one_line_counterexample :
    ¬ (rustLines (joinNL ["a\nb".data])).length = (["a\nb".data] : List (List Char)).length := by
  decide

/-- C6 (amended): a fragment contributes exactly one line provided its
text holds no embedded line-break characters (line feed or carriage
return) and the final fragment is nonempty; then the Doc Block line list
is exactly the fragment list, one line per fragment.  A fragment with
embedded line feeds contributes one line per embedded line instead, and a
trailing empty fragment contributes no line. -/
theorem one_fragment_one_line (frags : List (List Char))
    (hchars : ∀ f ∈ frags, ∀ c ∈ f, ¬ c = '\n' ∧ ¬ c = '\r')
    (hlast : ¬ frags.getLast? = some []) :
    rustLines (joinNL frags) = frags ∧
    (rustLines (joinNL frags)).length = frags.length := by
  have main := rustLines_joinNL_eq frags hchars hlast
  exact ⟨main, by rw [main]⟩

/-- Witness for the amended C6 at a concrete fragment list. -/
theorem one_fragment_one_line_witness :
    rustLines (joinNL [" This is a summary".data]) = [" This is a summary".data] ∧
    (rustLines (joinNL [" This is a summary".data])).length
      = ([" This is a summary".data] : List (List Char)).length :=
  one_fragment_one_line [" This is a summary".data] (by decide) (by decide)

/-! Claim C10: a trailing empty fragment does not change the split. -/

theorem linesAux_append_newline : ∀ l acc : List Char,
    linesAux acc (l ++ ['\n']) = linesAuxT acc l := by
  intro l
  induction l with
  | nil =>
    intro acc
    simp [linesAux, linesAuxT]
  | cons c cs ih =>
    intro acc
    have e : (c :: cs) ++ ['\n'] = c :: (cs ++ ['\n']) := rfl
    rw [e]
    simp only [linesAux, linesAuxT]
    rw [ih [], ih (c :: acc)]

theorem linesAux_pair : ∀ l acc : List Char, ∃ pre lastRev,
    linesAuxT acc l = pre ++ [lineOfRevAcc lastRev] ∧
    linesAux acc l = pre ++ (if lastRev.isEmpty then [] else [lastRev.reverse]) := by
  intro l
  induction l with
  | nil =>
    intro acc
    exact ⟨[], acc, by simp [linesAuxT], by simp [linesAux]⟩
  | cons c cs ih =>
    intro acc
    by_cases hc : c = '\n'
    · obtain ⟨pre, lastRev, hT, hA⟩ := ih []
      refine ⟨lineOfRevAcc acc :: pre, lastRev, ?_, ?_⟩
      · simp [linesAuxT, hc, hT]
      · simp [linesAux, hc, hA]
    · obtain ⟨pre, lastRev, hT, hA⟩ := ih (c :: acc)
      refine ⟨pre, lastRev, ?_, ?_⟩
      · simp [linesAuxT, hc, hT]
      · simp [linesAux, hc, hA]

theorem splitLines_append_nil (pre : List (List Char)) :
    splitLines (pre ++ [[]]) = splitLines pre := by
  have hk : (pre ++ [([] : List Char)]).findIdx isBlankLine = pre.findIdx isBlankLine :=
    findIdx_append_singleton_true isBlankLine [] (by decide) pre
  have hkle : pre.findIdx isBlankLine ≤ pre.length := List.findIdx_le_length isBlankLine
  have hsub : pre.findIdx isBlankLine - pre.length = 0 := Nat.sub_eq_zero_of_le hkle
  have htake : (pre ++ [([] : List Char)]).take (pre.findIdx isBlankLine)
      = pre.take (pre.findIdx isBlankLine) := by
    rw [List.take_append_eq_append_take, hsub, List.take_zero, List.append_nil]
  have hdrop : (pre ++ [([] : List Char)]).drop (pre.findIdx isBlankLine)
      = pre.drop (pre.findIdx isBlankLine) ++ [[]] := by
    rw [List.drop_append_eq_append_drop, hsub, List.drop_zero]
  have hdesc : ∀ d : List (List Char),
      trim (List.intercalate ['\n'] (d ++ [[]])) = trim (List.intercalate ['\n'] d) := by
    intro d
    cases d with
    | nil => decide
    | cons y zs =>
      rw [intercalate_append_singleton, List.append_nil]
      exact trim_append_ws _ '\n' (by decide)
  simp only [splitLines, firstEmptyIdx]
  rw [hk, htake, hdrop, hdesc]

theorem splitLines_strip_cr (pre : List (List Char)) (x : List Char) :
    splitLines (pre ++ [x ++ ['\r']]) = splitLines (pre ++ [x]) := by
  have hpx : isBlankLine (x ++ ['\r']) = isBlankLine x := isBlankLine_append_ws x '\r' (by decide)
  have hk : (pre ++ [x ++ ['\r']]).findIdx isBlankLine = (pre ++ [x]).findIdx isBlankLine :=
    findIdx_append_singleton_congr isBlankLine _ _ hpx pre
  have hkle : (pre ++ [x]).findIdx isBlankLine ≤ (pre ++ [x]).length :=
    List.findIdx_le_length isBlankLine
  have hlen : (pre ++ [x]).length = pre.length + 1 := by simp
  simp only [splitLines, firstEmptyIdx]
  rw [hk]
  rcases le_or_lt ((pre ++ [x]).findIdx isBlankLine) pre.length with hle | hgt
  · have hsub : (pre ++ [x]).findIdx isBlankLine - pre.length = 0 := Nat.sub_eq_zero_of_le hle
    have ht1 : (pre ++ [x ++ ['\r']]).take ((pre ++ [x]).findIdx isBlankLine)
        = pre.take ((pre ++ [x]).findIdx isBlankLine) := by
      rw [List.take_append_eq_append_take, hsub, List.take_zero, List.append_nil]
    have ht2 : (pre ++ [x]).take ((pre ++ [x]).findIdx isBlankLine)
        = pre.take ((pre ++ [x]).findIdx isBlankLine) := by
      rw [List.take_append_eq_append_take, hsub, List.take_zero, List.append_nil]
    have hd1 : (pre ++ [x ++ ['\r']]).drop ((pre ++ [x]).findIdx isBlankLine)
        = pre.drop ((pre ++ [x]).findIdx isBlankLine) ++ [x ++ ['\r']] := by
      rw [List.drop_append_eq_append_drop, hsub, List.drop_zero]
    have hd2 : (pre ++ [x]).drop ((pre ++ [x]).findIdx isBlankLine)
        = pre.drop ((pre ++ [x]).findIdx isBlankLine) ++ [x] := by
      rw [List.drop_append_eq_append_drop, hsub, List.drop_zero]
    have hdesc : ∀ d : List (List Char),
        trim (List.intercalate ['\n'] (d ++ [x ++ ['\r']]))
          = trim (List.intercalate ['\n'] (d ++ [x])) := by
      intro d
      cases d with
      | nil =>
        rw [List.nil_append, List.nil_append, intercalate_single, intercalate_single]
        exact trim_append_ws x '\r' (by decide)
      | cons y zs =>
        rw [intercalate_append_singleton, intercalate_append_singleton]
        have e : List.intercalate ['\n'] (y :: zs) ++ ['\n'] ++ (x ++ ['\r'])
            = (List.intercalate ['\n'] (y :: zs) ++ ['\n'] ++ x) ++ ['\r'] := by
          simp [List.append_assoc]
        rw [e]
        exact trim_append_ws _ '\r' (by decide)
    rw [ht1, ht2, hd1, hd2, hdesc]
  · have hkle2 : (pre ++ [x]).findIdx isBlankLine ≤ pre.length + 1 := by
      rw [← hlen]; exact hkle
    have hk2 : (pre ++ [x]).findIdx isBlankLine = pre.length + 1 := Nat.le_antisymm hkle2 hgt
    have hlen2 : (pre ++ [x ++ ['\r']]).length = pre.length + 1 := by simp
    have ht1 : (pre ++ [x ++ ['\r']]).take ((pre ++ [x]).findIdx isBlankLine)
        = pre ++ [x ++ ['\r']] := by
      rw [hk2, ← hlen2, List.take_length]
    have ht2 : (pre ++ [x]).take ((pre ++ [x]).findIdx isBlankLine) = pre ++ [x] := by
      rw [hk2, ← hlen, List.take_length]
    have hd1 : (pre ++ [x ++ ['\r']]).drop ((pre ++ [x]).findIdx isBlankLine) = [] := by
      rw [hk2, ← hlen2, List.drop_length]
    have hd2 : (pre ++ [x]).drop ((pre ++ [x]).findIdx isBlankLine) = [] := by
      rw [hk2, ← hlen, List.drop_length]
    have hsum : trim ((pre ++ [x ++ ['\r']]).flatten) = trim ((pre ++ [x]).flatten) := by
      rw [List.flatten_append, List.flatten_append]
      have e1 : [x ++ ['\r']].flatten = x ++ ['\r'] := by simp
      have e2 : [x].flatten = x := by simp
      rw [e1, e2, ← List.append_assoc]
      exact trim_append_ws _ '\r' (by decide)
    rw [ht1, ht2, hd1, hd2, hsum]

theorem splitLines_lineOfRevAcc (pre : List (List Char)) (lastRev : List Char) :
    splitLines (pre ++ [lineOfRevAcc lastRev])
      = splitLines (pre ++ (if lastRev.isEmpty then [] else [lastRev.reverse])) := by
  cases lastRev with
  | nil =>
    have h1 : lineOfRevAcc [] = [] := by decide
    have h2 : (if ([] : List Char).isEmpty then ([] : List (List Char)) else [([] : List Char).reverse])
        = [] := by decide
    rw [h1, h2, List.append_nil, splitLines_append_nil]
  | cons c t =>
    by_cases hc : c = '\r'
    · subst hc
      have h1 : lineOfRevAcc ('\r' :: t) = t.reverse := by simp [lineOfRevAcc]
      have h4 : (if ('\r' :: t).isEmpty then ([] : List (List Char)) else [('\r' :: t).reverse])
          = [t.reverse ++ ['\r']] := by simp
      rw [h1, h4]
      exact (splitLines_strip_cr pre t.reverse).symm
    · have h1 : lineOfRevAcc (c :: t) = (c :: t).reverse := by
        simp [lineOfRevAcc, hc]
      have h4 : (if (c :: t).isEmpty then ([] : List (List Char)) else [(c :: t).reverse])
          = [(c :: t).reverse] := by simp
      rw [h1, h4]

/-- C10: appending a trailing empty fragment never changes the split
result, and in particular the fragments S and empty give the same result
as the single fragment S, namely summary S with empty description. -/
theorem trailing_empty_fragment_noop :
    (∀ frags : List (List Char), splitDoc (frags ++ [[]]) = splitDoc frags) ∧
    splitDoc ["S".data, "".data] = ("S".data, []) ∧
    splitDoc ["S".data] = ("S".data, []) := by
  refine ⟨?_, by decide, by decide⟩
  intro frags
  cases frags with
  | nil => decide
  | cons g gs =>
    have hj : joinNL ((g :: gs) ++ [[]]) = joinNL (g :: gs) ++ ['\n'] := by
      rw [joinNL, joinNL, intercalate_append_singleton, List.append_nil]
    rw [splitDoc, splitDoc, hj, rustLines, rustLines, linesAux_append_newline]
    obtain ⟨pre, lastRev, hT, hA⟩ := linesAux_pair (joinNL (g :: gs)) []
    rw [hT, hA]
    exact splitLines_lineOfRevAcc pre lastRev

end AideComment
